import Mathlib

/-!
Verification of the statistics core of DVH Analytics (`dvha/models/plot.py`):
missing-data alignment (`Plot.clean_data`), the control-chart in/out-of-control
classification (`PlotControlChart.update_plot` and
`PlotControlChart.update_adjusted_control_chart`), the time-series trend and
percentile-band computation (`PlotTimeSeries.update_trend`), and the
adjusted-control-chart data preparation
(`PlotControlChart.get_adjusted_control_chart`).

Routines imported from `dvha.tools.stats` and `dvha.tools.utilities`
(`get_control_limits`, `MultiVariableRegression`, `collapse_into_single_dates`,
`moving_avg`) are not part of the sources; their Lean definitions are modelled
from the specification and marked `Modelled from the spec:` in their doc
comments.  Numeric values are embedded as rationals; Python lists as Lean
lists.
-/

namespace DVHA

open Matrix

/-- A Python value appearing in a per-study data sequence: either a numeric
observation (embedded as a rational) or a string — in particular the
missing-value sentinel, the literal string `'None'`. -/
inductive PyVal where
  | num (q : ℚ)
  | str (s : String)
deriving DecidableEq, Repr

instance : Inhabited PyVal := ⟨PyVal.num 0⟩

/-- The missing-value sentinel compared against in `Plot.clean_data`
(plot.py line 122: `value == 'None'`). -/
def sentinel : PyVal := PyVal.str "None"

/-- The `bad_indices` accumulation of `Plot.clean_data` (plot.py lines
120-123): for every variable in `data`, in order, extend the list with the
indices whose value equals `'None'`.  (The Python code converts the final
list to a `set`; only membership in it is ever used.) -/
def bad_indices (data : List (List PyVal)) : List ℕ :=
  data.foldl
    (fun acc var => acc ++ (var.enum.filter (fun p => p.2 = sentinel)).map Prod.fst) []

/-- One list comprehension
`[value for i, value in enumerate(var) if i not in bad_indices]`
of `Plot.clean_data` (plot.py lines 125 and 129). -/
def keep_good (bad : List ℕ) (var : List PyVal) : List PyVal :=
  (var.enum.filter (fun p => p.1 ∉ bad)).map Prod.snd

/-- Python truthiness of a companion keyword argument of `Plot.clean_data`
(plot.py line 128, `if var:`): a companion participates exactly when it is
not `None` and not the empty list. -/
def truthy (c : Option (List PyVal)) : Bool :=
  match c with
  | none => false
  | some l => l ≠ []

/-- `Plot.clean_data` (plot.py lines 107-131): collect the union of
sentinel-flagged indices over all `data` sequences, drop those indices from
every `data` sequence, then append each truthy companion (`mrn`, `uid`,
`dates`, in that fixed order) filtered by the same indices. -/
def clean_data (data : List (List PyVal)) (mrn uid dates : Option (List PyVal)) :
    List (List PyVal) :=
  let bad := bad_indices data
  let ans := data.map (keep_good bad)
  [mrn, uid, dates].foldl
    (fun acc c => if truthy c then acc ++ [keep_good bad (c.getD [])] else acc) ans

/-- Index `i` is flagged missing for `data`: some data sequence holds the
sentinel at position `i`.  (`List.getI` returns the default `PyVal.num 0` out
of range, which is never the sentinel.) -/
def flagged (data : List (List PyVal)) (i : ℕ) : Prop :=
  ∃ var ∈ data, var.getI i = sentinel

instance (data : List (List PyVal)) (i : ℕ) : Decidable (flagged data i) :=
  List.decidableBEx _ data

/-- The number of distinct sentinel-flagged indices among `0, …, n-1`. -/
def flagged_count (data : List (List PyVal)) (n : ℕ) : ℕ :=
  ((List.range n).filter (fun i => flagged data i)).length

section CleanDataLemmas

lemma foldl_append_eq_flatMap (f : List PyVal → List ℕ) :
    ∀ (data : List (List PyVal)) (acc : List ℕ),
      data.foldl (fun a v => a ++ f v) acc = acc ++ data.flatMap f := by
  intro data
  induction data with
  | nil => intro acc; simp
  | cons v rest ih =>
      intro acc
      simp only [List.foldl_cons, List.flatMap_cons, ih, List.append_assoc]

lemma bad_indices_eq_flatMap (data : List (List PyVal)) :
    bad_indices data =
      data.flatMap (fun var => (var.enum.filter (fun p => p.2 = sentinel)).map Prod.fst) := by
  have h := foldl_append_eq_flatMap
    (fun var => (var.enum.filter (fun p => p.2 = sentinel)).map Prod.fst) data []
  simpa [bad_indices] using h

/-- Membership in the accumulated `bad_indices` list is exactly the union,
over all data sequences, of the sentinel positions. -/
lemma mem_bad_indices_iff_flagged (data : List (List PyVal)) (i : ℕ) :
    i ∈ bad_indices data ↔ flagged data i := by
  rw [bad_indices_eq_flatMap, List.mem_flatMap]
  constructor
  · rintro ⟨var, hvar, hi⟩
    rcases List.mem_map.mp hi with ⟨⟨j, v⟩, hmem, hfst⟩
    rcases List.mem_filter.mp hmem with ⟨henum, hv⟩
    have hv' : v = sentinel := by simpa using hv
    rcases List.mk_mem_enum_iff_getElem?.mp henum with hget
    rcases List.getElem?_eq_some_iff.mp hget with ⟨hlt, hEq⟩
    refine ⟨var, hvar, ?_⟩
    cases hfst
    rw [List.getI_eq_getElem var hlt, hEq, hv']
  · rintro ⟨var, hvar, hget⟩
    by_cases hlt : i < var.length
    · refine ⟨var, hvar, ?_⟩
      refine List.mem_map.mpr ⟨(i, sentinel), ?_, rfl⟩
      refine List.mem_filter.mpr ⟨?_, by simp⟩
      refine List.mk_mem_enum_iff_getElem?.mpr ?_
      refine List.getElem?_eq_some_iff.mpr ⟨hlt, ?_⟩
      rw [← List.getI_eq_getElem var hlt, hget]
    · exfalso
      rw [List.getI_eq_default var (Nat.le_of_not_lt hlt)] at hget
      exact absurd hget (by simp [sentinel, default])

/-- `keep_good` keeps, in order, exactly the entries whose index is not in
`bad`. -/
lemma keep_good_eq_filter_not_flagged (data : List (List PyVal)) (var : List PyVal) :
    keep_good (bad_indices data) var =
      (var.enum.filter (fun p => ¬ flagged data p.1)).map Prod.snd := by
  unfold keep_good
  congr 1
  apply List.filter_congr
  intro p _
  simp [mem_bad_indices_iff_flagged]

/-- The foldl over the three companions appends exactly the truthy ones, in
order. -/
lemma companions_foldl (bad : List ℕ) (cs : List (Option (List PyVal))) :
    ∀ acc : List (List PyVal),
      cs.foldl (fun a c => if truthy c then a ++ [keep_good bad (c.getD [])] else a) acc =
        acc ++ (cs.filter truthy).map (fun c => keep_good bad (c.getD [])) := by
  induction cs with
  | nil => intro acc; simp
  | cons c rest ih =>
      intro acc
      rw [List.foldl_cons]
      by_cases hc : truthy c
      · rw [if_pos hc, ih, List.filter_cons_of_pos hc, List.map_cons]
        simp [List.append_assoc]
      · rw [if_neg hc, ih, List.filter_cons_of_neg (by simpa using hc)]

/-- Closed form of `clean_data`: the filtered data sequences followed by the
filtered truthy companions in the fixed order mrn, uid, dates. -/
lemma clean_data_eq (data : List (List PyVal)) (mrn uid dates : Option (List PyVal)) :
    clean_data data mrn uid dates =
      data.map (keep_good (bad_indices data)) ++
        (([mrn, uid, dates].filter truthy).map
          (fun c => keep_good (bad_indices data) (c.getD []))) := by
  unfold clean_data
  exact companions_foldl _ _ _

/-- Length of a `keep_good` result: the input length minus the number of
indices below it that lie in `bad`. -/
lemma keep_good_length (bad : List ℕ) (var : List PyVal) :
    (keep_good bad var).length =
      var.length - ((List.range var.length).filter (fun i => i ∈ bad)).length := by
  unfold keep_good
  rw [List.length_map, ← List.countP_eq_length_filter, ← List.countP_eq_length_filter]
  have hmap : List.countP (fun i => decide (i ∉ bad)) (var.enum.map Prod.fst) =
      List.countP (fun p => decide (p.1 ∉ bad)) var.enum := by
    rw [List.countP_map]
    rfl
  rw [List.enum_map_fst] at hmap
  have hsplit := List.length_eq_countP_add_countP (fun i => decide (i ∈ bad))
    (List.range var.length)
  have hnot : List.countP (fun i => decide (¬ (decide (i ∈ bad)) = true))
      (List.range var.length) =
      List.countP (fun i => decide (i ∉ bad)) (List.range var.length) := by
    apply List.countP_congr
    intro i _
    by_cases h : i ∈ bad <;> simp [h]
  rw [List.length_range] at hsplit
  rw [hnot] at hsplit
  rw [← hmap]
  omega

end CleanDataLemmas

/-- Claim C1: for every call to `clean_data`, the result contains, for each
data sequence, exactly the entries whose index is not in the union over all
data sequences of indices holding the sentinel `'None'`, preserving the
original relative order; in particular for `series1 = [1, 'None', 3]` and
`series2 = [4, 5, 'None']` the outputs are `[1]` and `[4]`. -/
theorem clean_data_union_of_none_indices :
    (∀ data : List (List PyVal),
      clean_data data none none none =
        data.map (fun var =>
          (var.enum.filter (fun p => ¬ flagged data p.1)).map Prod.snd)) ∧
    clean_data [[PyVal.num 1, sentinel, PyVal.num 3],
                [PyVal.num 4, PyVal.num 5, sentinel]] none none none
      = [[PyVal.num 1], [PyVal.num 4]] := by
  constructor
  · intro data
    rw [clean_data_eq]
    have hmap :
        data.map (keep_good (bad_indices data)) =
          data.map (fun var =>
            (var.enum.filter (fun p => ¬ flagged data p.1)).map Prod.snd) :=
      List.map_congr_left (fun var _ => keep_good_eq_filter_not_flagged data var)
    simp [truthy, hmap]
  · decide

/-- Claim C9: a companion sequence of `clean_data` that is `None` or empty is
omitted from the returned tuple; present companions are appended after the
data sequences in the fixed order mrn, uid, dates; the arity of the result is
the number of data sequences plus the number of truthy companions. -/
theorem clean_data_companion_arity :
    ∀ (data : List (List PyVal)) (mrn uid dates : Option (List PyVal)),
      clean_data data mrn uid dates =
        data.map (keep_good (bad_indices data)) ++
          (([mrn, uid, dates].filter truthy).map
            (fun c => keep_good (bad_indices data) (c.getD []))) ∧
      (clean_data data mrn uid dates).length =
        data.length + [mrn, uid, dates].countP truthy := by
  intro data mrn uid dates
  refine ⟨clean_data_eq data mrn uid dates, ?_⟩
  rw [clean_data_eq]
  simp [List.countP_eq_length_filter]

lemma keep_good_length_flagged (data : List (List PyVal)) (var : List PyVal)
    (n : ℕ) (h : var.length = n) :
    (keep_good (bad_indices data) var).length = n - flagged_count data n := by
  rw [keep_good_length, h, flagged_count]
  have hfil : (List.range n).filter (fun i => i ∈ bad_indices data) =
      (List.range n).filter (fun i => flagged data i) :=
    List.filter_congr (fun i _ => by simp [mem_bad_indices_iff_flagged])
  rw [hfil]

/-- Claim C4: all sequences returned by `clean_data` have identical length,
namely the input length minus the number of distinct sentinel-flagged
indices; if every index is flagged, the result consists of empty sequences
(no error is possible: the function is total). -/
theorem clean_data_length_invariant :
    ∀ (n : ℕ) (data : List (List PyVal)) (mrn uid dates : Option (List PyVal)),
      (∀ var ∈ data, var.length = n) →
      (∀ c ∈ [mrn, uid, dates], truthy c → (c.getD []).length = n) →
      ((clean_data data mrn uid dates).all
          (fun out => out.length = n - flagged_count data n) ∧
        ((∀ i < n, flagged data i) →
          (clean_data data mrn uid dates).all (fun out => out = []))) := by
  intro n data mrn uid dates hdata hcomp
  have hlen : ∀ out ∈ clean_data data mrn uid dates,
      out.length = n - flagged_count data n := by
    intro out hout
    rw [clean_data_eq] at hout
    rcases List.mem_append.mp hout with hout | hout
    · rcases List.mem_map.mp hout with ⟨var, hvar, rfl⟩
      exact keep_good_length_flagged data var n (hdata var hvar)
    · rcases List.mem_map.mp hout with ⟨c, hc, rfl⟩
      rcases List.mem_filter.mp hc with ⟨hcmem, hctruthy⟩
      exact keep_good_length_flagged data (c.getD []) n (hcomp c hcmem hctruthy)
  constructor
  · exact List.all_eq_true.mpr (fun out hout => by simpa using hlen out hout)
  · intro hall
    have hcount : flagged_count data n = n := by
      unfold flagged_count
      have : (List.range n).filter (fun i => flagged data i) = List.range n := by
        apply List.filter_eq_self.mpr
        intro i hi
        simpa using hall i (List.mem_range.mp hi)
      rw [this, List.length_range]
    apply List.all_eq_true.mpr
    intro out hout
    have h0 : out.length = 0 := by rw [hlen out hout, hcount]; omega
    simpa using List.eq_nil_of_length_eq_zero h0

/-- Concrete witness for C4: two variables of length 2 whose union of flagged
indices is everything, with one truthy companion. -/
theorem clean_data_length_invariant_witness :
    (clean_data [[sentinel, PyVal.num 2], [PyVal.num 4, sentinel]]
        (some [PyVal.str "a", PyVal.str "b"]) none none).all
      (fun out => out.length = 2 - flagged_count
        [[sentinel, PyVal.num 2], [PyVal.num 4, sentinel]] 2) ∧
    (clean_data [[sentinel, PyVal.num 2], [PyVal.num 4, sentinel]]
        (some [PyVal.str "a", PyVal.str "b"]) none none).all
      (fun out => out = []) := by
  have h := clean_data_length_invariant 2
    [[sentinel, PyVal.num 2], [PyVal.num 4, sentinel]]
    (some [PyVal.str "a", PyVal.str "b"]) none none
    (by decide) (by decide)
  exact ⟨h.1, h.2 (by decide)⟩

/-- The in-control test of `PlotControlChart.update_plot` (plot.py lines
1067-1070): the chained Python comparison `ucl > value > lcl` used as the
index into `colors = [out_of_control_color, plot_color]` and
`alphas = [out_of_control_alpha, circle_alpha]` — `True` (index 1) selects
the in-control style, `False` (index 0) the out-of-control style. -/
def in_control_raw (ucl value lcl : ℚ) : Bool :=
  decide (ucl > value) && decide (value > lcl)

/-- The in-control test of `PlotControlChart.update_adjusted_control_chart`
(plot.py lines 1099-1102), applied to regression residuals: textually the
same chained comparison `ucl > value > lcl` as in `update_plot`. -/
def in_control_adj (ucl value lcl : ℚ) : Bool :=
  decide (ucl > value) && decide (value > lcl)

/-- The two-element style list `[out_of_control_style, in_control_style]`
indexed by the in-control Boolean, as in `colors[ucl > value > lcl]`. -/
def point_style (out_style in_style : String) (b : Bool) : String :=
  [out_style, in_style].getI (cond b 1 0)

/-- Claim C2: a control-chart point is classified out of control exactly when
NOT `(lcl < value < ucl)` (strict inequalities), and the same rule is applied
to raw charting values and to regression residuals in the adjusted control
chart. -/
theorem out_of_control_strict :
    ∀ (value ucl lcl : ℚ) (out_style in_style : String),
      out_style ≠ in_style →
      ((point_style out_style in_style (in_control_raw ucl value lcl) = out_style
          ↔ ¬ (lcl < value ∧ value < ucl)) ∧
        in_control_adj ucl value lcl = in_control_raw ucl value lcl) := by
  intro value ucl lcl out_style in_style hne
  refine ⟨?_, rfl⟩
  by_cases h : lcl < value ∧ value < ucl
  · have hb : in_control_raw ucl value lcl = true := by
      simp [in_control_raw, h.1, h.2]
    have hps : point_style out_style in_style true = in_style := rfl
    rw [hb, hps]
    exact iff_of_false (fun heq => hne heq.symm) (not_not.mpr h)
  · have hb : in_control_raw ucl value lcl = false := by
      rcases not_and_or.mp h with h1 | h1 <;>
        simp [in_control_raw, not_lt.mp h1, not_lt]
    rw [hb]
    simp [point_style, h]

/-- Concrete witness for C2: with distinct styles, a value above the UCL is
styled out of control and the adjusted rule agrees. -/
theorem out_of_control_strict_witness :
    (point_style "red" "blue" (in_control_raw 2 5 1) = "red"
        ↔ ¬ ((1 : ℚ) < 5 ∧ (5 : ℚ) < 2)) ∧
      in_control_adj 2 5 1 = in_control_raw 2 5 1 :=
  out_of_control_strict 5 2 1 "red" "blue" (by decide)

/-- Modelled from the spec: the arithmetic mean used by
`get_control_limits` of `dvha.tools.stats` (module absent from the sources).
On the empty list it returns `0` (rational division by zero). -/
def mean (l : List ℚ) : ℚ := l.sum / l.length

/-- Modelled from the spec: the moving ranges `|x_i - x_(i-1)|` of
consecutive samples, used for the individuals-chart spread estimate. -/
def moving_ranges (l : List ℚ) : List ℚ :=
  (l.zip l.tail).map (fun p => |p.2 - p.1|)

/-- The Shewhart individuals-chart constant `SCALAR_D` (options.py line 122:
`self.SCALAR_D = 1.128`). -/
def SCALAR_D : ℚ := 1128 / 1000

/-- Modelled from the spec: `get_control_limits` of `dvha.tools.stats`
(module absent from the sources).  Center line = mean of the sample, sigma =
(mean moving range) / `SCALAR_D`, `UCL = center + 3·sigma`,
`LCL = center - 3·sigma`.  Returns `(center, ucl, lcl)`. -/
def get_control_limits (y : List ℚ) : ℚ × ℚ × ℚ :=
  let center := mean y
  let sigma := mean (moving_ranges y) / SCALAR_D
  (center, center + 3 * sigma, center - 3 * sigma)

/-- Counterexample to claim C3: on the constant series `[5,5,5,5]` the limits
are `center = ucl = lcl = 5`, but a point with value 5 — exactly on the
limits — is NOT classified in-control: the strict comparison
`ucl > value > lcl` of plot.py line 1069 evaluates to `False`, which selects
the out-of-control style. -/
theorem constant_series_boundary_cex :
    get_control_limits [5, 5, 5, 5] = (5, 5, 5) ∧
      ¬ in_control_raw 5 5 5 = true := by
  constructor
  · norm_num [get_control_limits, mean, moving_ranges, SCALAR_D]
  · simp [in_control_raw]

/-- Claim C3 as amended: on the constant series `[5,5,5,5]` the control
limits are `center = 5`, `ucl = 5`, `lcl = 5` (zero moving range, zero
spread), and every point — being exactly on the limits — is classified OUT
of control, because the strict comparison `ucl > value > lcl` fails on
boundary-equal values. -/
theorem constant_series_all_boundary_out :
    get_control_limits [5, 5, 5, 5] = (5, 5, 5) ∧
      ([5, 5, 5, 5] : List ℚ).all
        (fun v => in_control_raw 5 v 5 = false) := by
  constructor
  · norm_num [get_control_limits, mean, moving_ranges, SCALAR_D]
  · simp [in_control_raw]

/-- Linear-interpolation percentile of numpy's `np.percentile`, as invoked by
`PlotTimeSeries.update_trend` (plot.py lines 446-449): sort the sample, take
the fractional position `p/100 · (n-1)` and interpolate linearly between the
two neighbouring order statistics. -/
def np_percentile (a : List ℚ) (p : ℚ) : ℚ :=
  let s := List.insertionSort (· ≤ ·) a
  let n := a.length
  let pos := p * (n - 1) / 100
  let i := (⌊pos⌋).toNat
  let frac := pos - i
  if i + 1 < n then s.getI i + frac * (s.getI (i + 1) - s.getI i)
  else s.getI (n - 1)

/-- The percentile band of `PlotTimeSeries.update_trend` (plot.py lines
446-449): `lower_bound = np.percentile(y, 50 - percentile/2)`,
`average = np.percentile(y, 50)`,
`upper_bound = np.percentile(y, 50 + percentile/2)`.
Returned as `(lower, average, upper)`. -/
def percentile_band (y : List ℚ) (percentile : ℚ) : ℚ × ℚ × ℚ :=
  (np_percentile y (50 - percentile / 2),
    np_percentile y 50,
    np_percentile y (50 + percentile / 2))

/-- Claim C5: the percentile band returns the `(50 - p/2)`-th percentile as
lower bound, the 50th percentile (median) as center and the `(50 + p/2)`-th
percentile as upper bound; on `[10,20,30,40,50]` with `p = 80` the lower
bound is the 10th percentile, the upper bound the 90th percentile, and the
center is `30`. -/
theorem percentile_band_order_statistics :
    (∀ (y : List ℚ) (p : ℚ), y ≠ [] →
      percentile_band y p =
        (np_percentile y (50 - p / 2), np_percentile y 50,
          np_percentile y (50 + p / 2))) ∧
    percentile_band [10, 20, 30, 40, 50] 80 =
      (np_percentile [10, 20, 30, 40, 50] 10, 30,
        np_percentile [10, 20, 30, 40, 50] 90) ∧
    np_percentile [10, 20, 30, 40, 50] 10 = 14 ∧
    np_percentile [10, 20, 30, 40, 50] 90 = 46 := by
  have h10 : np_percentile [10, 20, 30, 40, 50] 10 = 14 := by
    simp only [np_percentile, List.insertionSort, List.orderedInsert]
    norm_num
    all_goals simp [List.getI]
    all_goals norm_num
  have h50 : np_percentile [10, 20, 30, 40, 50] 50 = 30 := by
    simp only [np_percentile, List.insertionSort, List.orderedInsert]
    norm_num
    all_goals simp [List.getI]
    all_goals norm_num
  have h90 : np_percentile [10, 20, 30, 40, 50] 90 = 46 := by
    simp only [np_percentile, List.insertionSort, List.orderedInsert]
    norm_num
    all_goals simp [List.getI]
    all_goals norm_num
  refine ⟨fun y p _ => rfl, ?_, h10, h90⟩
  show (np_percentile [10, 20, 30, 40, 50] (50 - 80 / 2),
    np_percentile [10, 20, 30, 40, 50] 50,
    np_percentile [10, 20, 30, 40, 50] (50 + 80 / 2)) = _
  norm_num [h10, h50, h90]

/-- Concrete witness for C5: the general band identity applied to the
scenario input. -/
theorem percentile_band_order_statistics_witness :
    percentile_band [10, 20, 30, 40, 50] 80 =
      (np_percentile [10, 20, 30, 40, 50] (50 - 80 / 2),
        np_percentile [10, 20, 30, 40, 50] 50,
        np_percentile [10, 20, 30, 40, 50] (50 + 80 / 2)) :=
  percentile_band_order_statistics.1 [10, 20, 30, 40, 50] 80 (by decide)

/-- Modelled from the spec: `collapse_into_single_dates` of
`dvha.tools.utilities` (module absent from the sources).  Observations
sharing the same calendar date are aggregated by their mean into a single
point. -/
def collapse_into_single_dates (x y : List ℚ) : List ℚ × List ℚ :=
  let ds := x.dedup
  (ds, ds.map (fun d =>
    mean ((x.zip y).filterMap (fun p => if p.1 = d then some p.2 else none))))

/-- Modelled from the spec: `moving_avg` of `dvha.tools.utilities` (module
absent from the sources).  Sliding window of length `w` over the collapsed
series; the trend point at index `i ≥ w - 1` averages the `w` values ending
at `i`; window length 1 is the identity passthrough. -/
def moving_avg (xy : List ℚ × List ℚ) (w : ℕ) : List ℚ × List ℚ :=
  let idxs := (List.range xy.2.length).filter (fun i => w ≤ i + 1)
  (idxs.map (fun i => xy.1.getI i),
    idxs.map (fun i => mean ((xy.2.drop (i + 1 - w)).take w)))

/-- The trend/bound/patch column-data contents written by
`PlotTimeSeries.update_trend` (plot.py lines 436-461). -/
structure TrendData where
  trend_x : List ℚ
  trend_y : List ℚ
  trend_mrn : List String
  bound_x : List ℚ
  bound_mrn : List String
  bound_upper : List ℚ
  bound_avg : List ℚ
  bound_lower : List ℚ
  bound_y : List ℚ
  patch_x : List ℚ
  patch_y : List ℚ
deriving DecidableEq, Repr

/-- The cleared state of the trend/bound/patch sources: `update_trend` runs
after `clear_sources`, so when its guard fails every source keeps its empty
contents. -/
def emptyTrendData : TrendData :=
  ⟨[], [], [], [], [], [], [], [], [], [], []⟩

/-- `PlotTimeSeries.update_trend` (plot.py lines 436-461): behind the guard
`if x and y:`, collapse same-date observations, take the moving average, and
derive the percentile band of `y`; with an empty `x` or `y` nothing is
written and the (cleared) sources stay empty. -/
def update_trend (x y : List ℚ) (avg_len : ℕ) (percentile : ℚ) : TrendData :=
  if x ≠ [] ∧ y ≠ [] then
    let dc := collapse_into_single_dates x y
    let t := moving_avg dc avg_len
    let upper := np_percentile y (50 + percentile / 2)
    let average := np_percentile y 50
    let lower := np_percentile y (50 - percentile / 2)
    { trend_x := t.1
      trend_y := t.2
      trend_mrn := List.replicate t.1.length "Avg"
      bound_x := [x.headI, x.getLastI]
      bound_mrn := List.replicate 2 "Series Avg"
      bound_upper := List.replicate 2 upper
      bound_avg := List.replicate 2 average
      bound_lower := List.replicate 2 lower
      bound_y := List.replicate 2 average
      patch_x := [x.headI, x.getLastI, x.getLastI, x.headI]
      patch_y := [upper, upper, lower, lower] }
  else emptyTrendData

/-- Claim C8: on an empty input series the trend computation produces empty
outputs and no error — `update_trend` leaves every source empty (the total
Lean function witnesses absence of an exception), and the date-collapsing
and moving-average helpers map empty input to empty output. -/
theorem update_trend_empty_input :
    (∀ (y : List ℚ) (a : ℕ) (p : ℚ), update_trend [] y a p = emptyTrendData) ∧
    (∀ (x : List ℚ) (a : ℕ) (p : ℚ), update_trend x [] a p = emptyTrendData) ∧
    collapse_into_single_dates [] [] = ([], []) ∧
    (∀ w : ℕ, moving_avg ([], []) w = ([], [])) := by
  refine ⟨fun y a p => ?_, fun x a p => ?_, ?_, fun w => ?_⟩
  · simp [update_trend]
  · simp [update_trend]
  · simp [collapse_into_single_dates]
  · simp [moving_avg]

/-- The error signals of the spec's RegressionEngine: `InsufficientDataError`
for an underdetermined sample, `NumericInstabilityError` for degenerate
(singular) data. -/
inductive RegressionError where
  | insufficientData
  | numericInstability
deriving DecidableEq, Repr

/-- Modelled from the spec: the fields of `FitResult` the claims refer to
(intercept, per-variable slopes, fitted values, residuals). -/
structure FitResult (n k : ℕ) where
  y_intercept : ℚ
  slope : Fin k → ℚ
  predictions : Fin n → ℚ
  residuals : Fin n → ℚ
deriving DecidableEq

/-- Modelled from the spec: the design matrix augmented with a leading
intercept column of ones. -/
def augment {n k : ℕ} (X : Matrix (Fin n) (Fin k) ℚ) :
    Matrix (Fin n) (Fin (k + 1)) ℚ :=
  Matrix.of fun i => Fin.cons 1 (fun j => X i j)

/-- Modelled from the spec: `MultiVariableRegression` of `dvha.tools.stats`
(module absent from the sources).  Ordinary least squares on the
intercept-augmented design matrix via the normal equations
`β = (XᵀX)⁻¹ Xᵀ y` (computed through the adjugate).  It signals
`InsufficientDataError` when the residual degrees of freedom `n - k - 1` are
not positive, i.e. when `n ≤ k + 1` (rational inputs are always finite, so
the spec's non-finite-input condition cannot fire in this embedding), and
`NumericInstabilityError` when `XᵀX` is singular. -/
def fit {n k : ℕ} (X : Matrix (Fin n) (Fin k) ℚ) (y : Fin n → ℚ) :
    Except RegressionError (FitResult n k) :=
  if n ≤ k + 1 then .error .insufficientData
  else
    let Xa := augment X
    let G := Xaᵀ * Xa
    if G.det = 0 then .error .numericInstability
    else
      let β := G.det⁻¹ • (G.adjugate.mulVec (Xaᵀ.mulVec y))
      let pred := Xa.mulVec β
      .ok { y_intercept := β 0
            slope := fun j => β j.succ
            predictions := pred
            residuals := fun i => y i - pred i }

/-- Modelled from the spec: `predict(X_new) = X_new · slope + intercept`,
evaluating a previously fitted model on a design matrix. -/
def predict {n k m : ℕ} (fr : FitResult n k) (Xnew : Matrix (Fin m) (Fin k) ℚ) :
    Fin m → ℚ :=
  fun i => (∑ j, Xnew i j * fr.slope j) + fr.y_intercept

/-- Counterexample to claim C6: at `n = k + 1` (here `n = 2`, `k = 1`) the
fit raises `InsufficientDataError` although `n ≤ k` is false, so "errors
exactly when `n ≤ k`" cannot be the threshold; the inputs are finite
rationals. -/
theorem fit_threshold_cex :
    fit (n := 2) (k := 1) !![(1 : ℚ); 2] ![1, 2] = .error .insufficientData ∧
      ¬ ((2 : ℕ) ≤ 1) := by
  constructor
  · simp [fit]
  · norm_num

section FitConcrete

/-- Concrete design matrix with `n = 3 = k + 2` samples for one predictor. -/
def X0 : Matrix (Fin 3) (Fin 1) ℚ := !![0; 1; 2]

/-- Concrete response for `X0`. -/
def y0 : Fin 3 → ℚ := ![0, 1, 2]

/-- The exact OLS fit on `X0`, `y0`: intercept 0, slope 1, a perfect fit. -/
def fr0 : FitResult 3 1 :=
  { y_intercept := 0
    slope := ![1]
    predictions := ![0, 1, 2]
    residuals := ![0, 0, 0] }

lemma augment_X0 : augment X0 = !![1, 0; 1, 1; 1, 2] := by
  funext i j
  fin_cases i <;> fin_cases j <;>
    simp [augment, X0, Fin.cons] <;> rfl

lemma gram_X0 : (augment X0)ᵀ * augment X0 = !![3, 3; 3, 5] := by
  rw [augment_X0]
  funext i j
  fin_cases i <;> fin_cases j <;>
    simp [Matrix.mul_apply, Fin.sum_univ_succ] <;> norm_num

lemma gram_X0_det : ((augment X0)ᵀ * augment X0).det = 6 := by
  rw [gram_X0, Matrix.det_fin_two]
  norm_num

lemma fit_X0_y0 : fit X0 y0 = .ok fr0 := by
  have hXty : (augment X0)ᵀ.mulVec y0 = ![3, 5] := by
    rw [augment_X0]
    funext j
    fin_cases j <;>
      simp [Matrix.mulVec, Matrix.dotProduct, Fin.sum_univ_succ, y0] <;> norm_num
  have hadj : ((augment X0)ᵀ * augment X0).adjugate = !![5, -3; -3, 3] := by
    rw [gram_X0, Matrix.adjugate_fin_two]
    norm_num
  have hbeta : (((augment X0)ᵀ * augment X0).det)⁻¹ •
      (((augment X0)ᵀ * augment X0).adjugate.mulVec ((augment X0)ᵀ.mulVec y0)) =
      ![0, 1] := by
    rw [gram_X0_det, hadj, hXty]
    funext j
    fin_cases j <;>
      simp [Matrix.mulVec, Matrix.dotProduct, Fin.sum_univ_succ] <;> norm_num
  have hpred : (augment X0).mulVec ![0, 1] = ![0, 1, 2] := by
    rw [augment_X0]
    funext i
    fin_cases i <;>
      simp [Matrix.mulVec, Matrix.dotProduct, Fin.sum_univ_succ] <;> norm_num
  unfold fit
  rw [if_neg (by norm_num)]
  simp only
  rw [if_neg (by rw [gram_X0_det]; norm_num)]
  simp only [hbeta, hpred]
  have hslope : (fun j : Fin 1 => (![(0 : ℚ), 1]) j.succ) = ![1] := by
    funext j
    fin_cases j
    rfl
  have hres : (fun i => y0 i - (![(0 : ℚ), 1, 2]) i) = ![0, 0, 0] := by
    funext i
    fin_cases i <;> simp [y0]
  rw [hslope, hres]
  rfl

end FitConcrete

/-- Claim C6 as amended: the fit raises `InsufficientDataError` exactly when
the residual degrees of freedom vanish, `n ≤ k + 1` (not `n ≤ k`); on
`n = k + 2` samples with a non-degenerate design it succeeds, as the
concrete full-rank `n = 3`, `k = 1` instance shows. -/
theorem fit_insufficient_iff :
    (∀ (n k : ℕ) (X : Matrix (Fin n) (Fin k) ℚ) (y : Fin n → ℚ),
      fit X y = .error .insufficientData ↔ n ≤ k + 1) ∧
    (fit X0 y0).isOk = true := by
  constructor
  · intro n k X y
    constructor
    · intro h
      by_contra hn
      unfold fit at h
      rw [if_neg hn] at h
      simp only at h
      by_cases hd : (((augment X)ᵀ) * augment X).det = 0
      · rw [if_pos hd] at h
        exact RegressionError.noConfusion (Except.error.inj h)
      · rw [if_neg hd] at h
        exact Except.noConfusion h
    · intro h
      unfold fit
      rw [if_pos h]
  · rw [fit_X0_y0]
    rfl

/-- Claim C7: for every successfully fitted model, `predict` applied to the
fit's own design matrix reproduces the stored `predictions` exactly — hence
in particular elementwise within the tolerance `1e-9`. -/
theorem predict_eq_predictions :
    ∀ (n k : ℕ) (X : Matrix (Fin n) (Fin k) ℚ) (y : Fin n → ℚ)
      (fr : FitResult n k),
      fit X y = .ok fr →
      (predict fr X = fr.predictions ∧
        ∀ i, |predict fr X i - fr.predictions i| ≤ 1 / 10 ^ 9) := by
  intro n k X y fr hfit
  unfold fit at hfit
  by_cases h1 : n ≤ k + 1
  · rw [if_pos h1] at hfit
    exact Except.noConfusion hfit
  · rw [if_neg h1] at hfit
    simp only at hfit
    by_cases h2 : (((augment X)ᵀ) * augment X).det = 0
    · rw [if_pos h2] at hfit
      exact Except.noConfusion hfit
    · rw [if_neg h2] at hfit
      have hfr := Except.ok.inj hfit
      have heq : predict fr X = fr.predictions := by
        rw [← hfr]
        funext i
        show (∑ j, X i j * _) + _ = (augment X).mulVec _ i
        rw [Matrix.mulVec, Matrix.dotProduct, Fin.sum_univ_succ]
        simp only [augment, Matrix.of_apply, Fin.cons_zero, Fin.cons_succ]
        ring
      exact ⟨heq, fun i => by rw [heq]; simp⟩

/-- Concrete witness for C7: the exact `n = 3`, `k = 1` fit above. -/
theorem predict_eq_predictions_witness :
    predict fr0 X0 = fr0.predictions ∧
      ∀ i, |predict fr0 X0 i - fr0.predictions i| ≤ 1 / 10 ^ 9 :=
  predict_eq_predictions 3 1 X0 y0 fr0 fit_X0_y0

/-- The `x`/`residuals`/`mrn`/`uid`/`dates` dictionary returned by
`PlotControlChart.get_adjusted_control_chart`. -/
structure AdjustedControlChartData where
  x : List ℕ
  residuals : List ℚ
  mrn : List String
  uid : List String
  dates : List ℚ
deriving DecidableEq, Repr

/-- The Python `sorted(range(len(dates)), key=lambda k: dates[k])` of
plot.py line 1136: a stable ascending sort of the index range by date. -/
def sort_index (dates : List ℚ) : List ℕ :=
  List.insertionSort (fun a b => dates.getI a ≤ dates.getI b)
    (List.range dates.length)

/-- `PlotControlChart.get_adjusted_control_chart` (plot.py lines 1127-1146),
taking as inputs the parallel sequences produced by its external
collaborators: `y` from `stats_data.get_X_and_y`, the regression
`predictions` from `regression.reg.predict(X)` (both outside the sources),
and the parallel `mrn`, `uid`, `dates`.  It forms the residuals `y - pred`,
the 1-based study axis, and re-orders residuals, mrn, uid and dates by the
date-sorted index list. -/
def get_adjusted_control_chart (y predictions : List ℚ)
    (mrn uid : List String) (dates : List ℚ) : AdjustedControlChartData :=
  let residuals := (y.zip predictions).map (fun p => p.1 - p.2)
  let x := (List.range y.length).map (· + 1)
  let si := sort_index dates
  { x := x
    residuals := si.map (fun k => residuals.getI k)
    mrn := si.map (fun k => mrn.getI k)
    uid := si.map (fun k => uid.getI k)
    dates := si.map (fun k => dates.getI k) }

/-- Claim C10: `get_adjusted_control_chart` permutes residuals, mrn, uid and
dates by one common permutation of `0, …, n-1` — the index list sorted
ascending by date — so index correspondence among the four sequences is
preserved, the returned dates are ascending, and the returned `x` is exactly
`[1, …, n]`. -/
theorem adjusted_control_chart_alignment :
    ∀ (n : ℕ) (y predictions : List ℚ) (mrn uid : List String)
      (dates : List ℚ),
      y.length = n → predictions.length = n → mrn.length = n →
      uid.length = n → dates.length = n →
      ∃ si : List ℕ,
        si.Perm (List.range n) ∧
        (get_adjusted_control_chart y predictions mrn uid dates).residuals =
          si.map (fun k =>
            ((y.zip predictions).map (fun p => p.1 - p.2)).getI k) ∧
        (get_adjusted_control_chart y predictions mrn uid dates).mrn =
          si.map (fun k => mrn.getI k) ∧
        (get_adjusted_control_chart y predictions mrn uid dates).uid =
          si.map (fun k => uid.getI k) ∧
        (get_adjusted_control_chart y predictions mrn uid dates).dates =
          si.map (fun k => dates.getI k) ∧
        List.Sorted (· ≤ ·)
          (get_adjusted_control_chart y predictions mrn uid dates).dates ∧
        (get_adjusted_control_chart y predictions mrn uid dates).x =
          (List.range n).map (· + 1) := by
  intro n y predictions mrn uid dates hy hp hm hu hd
  refine ⟨sort_index dates, ?_, rfl, rfl, rfl, rfl, ?_, ?_⟩
  · show (List.insertionSort (fun a b => dates.getI a ≤ dates.getI b)
        (List.range dates.length)).Perm (List.range n)
    rw [hd]
    exact List.perm_insertionSort _ _
  · haveI : IsTotal ℕ (fun a b => dates.getI a ≤ dates.getI b) :=
      ⟨fun a b => le_total _ _⟩
    haveI : IsTrans ℕ (fun a b => dates.getI a ≤ dates.getI b) :=
      ⟨fun a b c hab hbc => le_trans hab hbc⟩
    have hsorted := List.sorted_insertionSort
      (fun a b => dates.getI a ≤ dates.getI b) (List.range dates.length)
    show List.Sorted (· ≤ ·) ((sort_index dates).map (fun k => dates.getI k))
    exact List.pairwise_map.mpr hsorted
  · show (List.range y.length).map (· + 1) = (List.range n).map (· + 1)
    rw [hy]

/-- Concrete witness for C10: three studies with unsorted dates. -/
theorem adjusted_control_chart_alignment_witness :
    ∃ si : List ℕ,
      si.Perm (List.range 3) ∧
      (get_adjusted_control_chart [1, 2, 3] [0, 0, 0] ["a", "b", "c"]
          ["u1", "u2", "u3"] [2, 1, 3]).residuals =
        si.map (fun k =>
          ((([1, 2, 3] : List ℚ).zip [0, 0, 0]).map
            (fun p => p.1 - p.2)).getI k) ∧
      (get_adjusted_control_chart [1, 2, 3] [0, 0, 0] ["a", "b", "c"]
          ["u1", "u2", "u3"] [2, 1, 3]).mrn =
        si.map (fun k => (["a", "b", "c"] : List String).getI k) ∧
      (get_adjusted_control_chart [1, 2, 3] [0, 0, 0] ["a", "b", "c"]
          ["u1", "u2", "u3"] [2, 1, 3]).uid =
        si.map (fun k => (["u1", "u2", "u3"] : List String).getI k) ∧
      (get_adjusted_control_chart [1, 2, 3] [0, 0, 0] ["a", "b", "c"]
          ["u1", "u2", "u3"] [2, 1, 3]).dates =
        si.map (fun k => ([2, 1, 3] : List ℚ).getI k) ∧
      List.Sorted (· ≤ ·)
        (get_adjusted_control_chart [1, 2, 3] [0, 0, 0] ["a", "b", "c"]
          ["u1", "u2", "u3"] [2, 1, 3]).dates ∧
      (get_adjusted_control_chart [1, 2, 3] [0, 0, 0] ["a", "b", "c"]
          ["u1", "u2", "u3"] [2, 1, 3]).x =
        (List.range 3).map (· + 1) :=
  adjusted_control_chart_alignment 3 [1, 2, 3] [0, 0, 0] ["a", "b", "c"]
    ["u1", "u2", "u3"] [2, 1, 3] rfl rfl rfl rfl rfl

end DVHA
